import Mathlib

/-!
Verification development for the study-timetable generator in
`src/modules/scheduler.py` (functions `calculate_subject_distribution` and
`generate_smart_timetable`).

Modelling conventions.

* Wall-clock times and durations are integers counting minutes since
  midnight of the nominal day.  The source works with `datetime` values on
  a single day and adds `timedelta(minutes=...)` or `timedelta(hours=...)`;
  its UI produces only whole-minute times (`st.time_input`), whole-minute
  durations (`st.number_input`/`st.selectbox` over integers) and session
  lengths from {0.5, 1, 1.5, 2} hours, so every reachable configuration is
  exactly a vector of integer minutes.  `sessionDur` is `session_duration`
  (hours) times 60.
* Weakness scores are rationals; the rational arithmetic of
  `calculate_subject_distribution` coincides with the float arithmetic of
  the source on all inputs used in concrete checks below (each chosen to be
  exactly representable in binary floating point).
* Python `int()` applied to a float truncates toward zero; this is
  `ratTrunc` below.
* The `duration` field of a slot in the source always equals its
  `end - start` span (checked against every slot constructor in the
  source), so it is derived here rather than stored.
* Python dicts keep insertion order and update values in place;
  `dictInsert` mirrors that behaviour for the `days_per_subject` dict.
* The `np.random.seed(42)` / `np.random.shuffle(subject_pool)` pair is an
  external library call.  It is modelled as an explicit state-passing
  deterministic permutation (`npSeed`, `npShuffle`): seeding replaces the
  generator state by a function of the seed alone, and shuffling is a
  deterministic permutation of the list driven by that state.  Universal
  theorems about the generated week quantify over an arbitrary pool list,
  which covers every possible permutation, so no result depends on the
  concrete permutation this model realises.
-/

/-- A subject prediction row as consumed by the scheduler core.  Of the
columns built in `show` (scheduler.py lines 69-76) only `subject` and
`weakness_score` are ever read by `calculate_subject_distribution` and
`generate_smart_timetable`. -/
structure SubjectPred where
  subject : String
  weakness_score : ℚ
deriving DecidableEq, Repr

/-- The configuration parameters of `generate_smart_timetable`
(scheduler.py lines 181-182 and the `meal_times` dict).  All times and
durations are in minutes; `sessionDur` is `session_duration` (hours) times
60. -/
structure Config where
  wake : ℤ
  sleep : ℤ
  breakDur : ℤ
  maxSessions : ℕ
  sessionDur : ℤ
  breakfastTime : ℤ
  breakfastDur : ℤ
  lunchTime : ℤ
  lunchDur : ℤ
  dinnerTime : ℤ
  dinnerDur : ℤ
  morningRoutine : ℤ
deriving DecidableEq, Repr

/-- The `type` tag of a slot dict in the source: one of `Routine`, `Meal`,
`Study`, `Break`, `Revision`, `Assessment`, `Free` (`rest` stands for the
`rest` stands for the `Break` tag of the source, a reserved word here). -/
inductive SlotType where
  | routine
  | meal
  | study
  | rest
  | revision
  | assessment
  | free
deriving DecidableEq, Repr

/-- A scheduled block, the slot dict of the source with keys time,
subject, type and duration: the half-open span `[start, stop)` in minutes
plus its label and tag.  The duration field of the source always equals
`(stop - start) / 60` hours, so it is derived, not stored. -/
structure Slot where
  start : ℤ
  stop : ℤ
  subject : String
  kind : SlotType
deriving DecidableEq, Repr

/-- Truncation toward zero, the behaviour of Python `int()` on a float. -/
def ratTrunc (q : ℚ) : ℤ := if q < 0 then ⌈q⌉ else ⌊q⌋

/-- Sum of the `weakness_score` column
(the weakness_score column sum of the predictions frame, scheduler.py
line 164). -/
def totalWeakness (preds : List SubjectPred) : ℚ :=
  (preds.map SubjectPred.weakness_score).sum

/-- Per-subject day count for a positive total weakness, mirroring
scheduler.py lines 174-176: `proportion = weakness / total` and
`days = max(1, min(6, int(proportion * total_days * 2)))`. -/
def allocDays (total_days w total : ℚ) : ℤ :=
  max 1 (min 6 (ratTrunc (w / total * total_days * 2)))

/-- Insertion into a Python dict rendered as an association list: an
existing key keeps its position and gets the new value, a new key is
appended. -/
def dictInsert (k : String) (v : ℤ) : List (String × ℤ) → List (String × ℤ)
  | [] => [(k, v)]
  | (k2, v2) :: rest =>
      if k2 = k then (k, v) :: rest else (k2, v2) :: dictInsert k v rest

/-- The day-allocation function `calculate_subject_distribution`
(scheduler.py lines 158-179): equal default of 3 when total weakness is
zero, otherwise the clamped truncated proportional count per subject. -/
def calculate_subject_distribution (preds : List SubjectPred) (total_days : ℚ) :
    List (String × ℤ) :=
  let total := totalWeakness preds
  if total = 0 then
    preds.foldl (fun d p => dictInsert p.subject 3 d) []
  else
    preds.foldl
      (fun d p => dictInsert p.subject (allocDays total_days p.weakness_score total) d) []

/-- The flat pool of subject tokens (scheduler.py lines 216-218): each
subject repeated by its allocated day count, in dict order. -/
def subjectPool (preds : List SubjectPred) : List String :=
  (calculate_subject_distribution preds 6).foldl
    (fun l e => l ++ List.replicate e.2.toNat e.1) []

/-- Modelled: `np.random.seed(n)` replaces the global generator state by a
value depending only on `n` (scheduler.py line 221). -/
def npSeed (n : Nat) : Nat → Nat := fun _ => n

/-- A deterministic step of the modelled pseudo-random generator. -/
def lcgNext (g : Nat) : Nat :=
  (6364136223846793005 * g + 1442695040888963407) % 18446744073709551616

/-- Fuel-driven Fisher-Yates walk used by the modelled `np.random.shuffle`. -/
def shuffleGo {α : Type} : Nat → Nat → List α → List α × Nat
  | 0, g, l => (l, g)
  | _ + 1, g, [] => ([], g)
  | fuel + 1, g, x :: xs =>
      let g1 := lcgNext g
      let i := g1 % (xs.length + 1)
      let y := (x :: xs).getD i x
      let r := shuffleGo fuel g1 ((x :: xs).eraseIdx i)
      (y :: r.1, r.2)

/-- Modelled: `np.random.shuffle` as a deterministic state-passing
permutation of the list (scheduler.py line 222).  The numpy permutation
itself is external library code; every theorem below that concerns the
generated week quantifies over an arbitrary pool order, so no result
depends on which permutation this model realises. -/
def npShuffle {α : Type} (g : Nat) (l : List α) : List α × Nat :=
  shuffleGo l.length g l

/-- One pass of the token-drawing `while` loop of scheduler.py lines
235-245: the fuel argument counts the remaining `attempts` (20 at entry),
`idx` is the running `pool_index`, `acc` the `day_subjects` list.  The
loop guard is `len(day_subjects) < target and pool_index < len(pool) and
attempts < 20`; an accepted candidate must not already occur twice. -/
def drawLoop (pool : List String) (target : ℕ) :
    ℕ → ℕ → List String → List String × ℕ
  | 0, idx, acc => (acc, idx)
  | fuel + 1, idx, acc =>
      if acc.length < target ∧ idx < pool.length then
        let subject := pool.getD (idx % pool.length) ""
        if acc.count subject < 2 then
          drawLoop pool target fuel (idx + 1) (acc ++ [subject])
        else
          drawLoop pool target fuel (idx + 1) acc
      else (acc, idx)

/-- The Monday-to-Saturday assignment loop of scheduler.py lines 229-247:
six days in order, each drawing from the shared pool with the running
`pool_index` threaded through (it is never reset between days). -/
def assignGo (pool : List String) (target : ℕ) : ℕ → ℕ → List (List String)
  | 0, _ => []
  | d + 1, idx =>
      let r := drawLoop pool target 20 idx []
      r.1 :: assignGo pool target d r.2

/-- Token lists for Monday..Saturday; `sessions_for_day =
min(max_sessions_per_day, 4)` (scheduler.py line 230). -/
def assignDays (pool : List String) (maxSessions : ℕ) : List (List String) :=
  assignGo pool (min maxSessions 4) 6 0

/-- The meal-insertion check performed before each Study block
(scheduler.py lines 281-290 for Lunch and 293-302 for Dinner, which are
textually identical up to the meal): the meal is pulled in front of the
session when `current < meal < session_end` or when `current < meal` and
the gap to the meal start is under 30 minutes; the cursor then advances
past the meal. -/
def mealCheck (mt md sd : ℤ) (label : String) (current : ℤ) :
    List Slot × ℤ :=
  if (current < mt ∧ mt < current + sd) ∨ (current < mt ∧ mt - current < 30) then
    ([⟨mt, mt + md, label, SlotType.meal⟩], mt + md)
  else ([], current)

/-- The per-day study-session loop of scheduler.py lines 276-323: for each
drawn subject, run the Lunch check, then the Dinner check from the updated
cursor, place the Study block, and append a Break after every session
except the last.  Returns the emitted slots and the final cursor. -/
def sessionLoop (lt ld dt dd sd bd : ℤ) : List String → ℤ → List Slot × ℤ
  | [], current => ([], current)
  | subject :: rest, current =>
      let p1 := mealCheck lt ld sd "🍛 Lunch" current
      let p2 := mealCheck dt dd sd "🍽️ Dinner" p1.2
      let sEnd := p2.2 + sd
      let study : Slot := ⟨p2.2, sEnd, subject, SlotType.study⟩
      match rest with
      | [] => (p1.1 ++ p2.1 ++ [study], sEnd)
      | r :: rs =>
          let t := sessionLoop lt ld dt dd sd bd (r :: rs) (sEnd + bd)
          (p1.1 ++ p2.1 ++ [study, ⟨sEnd, sEnd + bd, "☕ Break", SlotType.rest⟩] ++ t.1,
           t.2)

/-- The scan of scheduler.py line 326 for an already-emitted Dinner slot
(a Meal-tagged slot whose label contains the word Dinner).  The only Meal
labels the generator ever produces are `🍳 Breakfast`, `🍛 Lunch` and
`🍽️ Dinner`, so the substring test of the source is equivalent to label
equality. -/
def hasDinnerSlot (slots : List Slot) : Bool :=
  slots.any fun s => decide (s.kind = SlotType.meal ∧ s.subject = "🍽️ Dinner")

/-- A full Monday-to-Saturday day (scheduler.py lines 250-345): Morning
Routine from wake, Breakfast at its configured time, the session loop from
breakfast end, and the trailing Self-Study filler / Dinner when Dinner was
not inserted by the loop and the cursor is still before dinner time. -/
def buildWeekday (cfg : Config) (tokens : List String) : List Slot :=
  let routineEnd := cfg.wake + cfg.morningRoutine
  let breakfastEnd := cfg.breakfastTime + cfg.breakfastDur
  let base : List Slot :=
    [⟨cfg.wake, routineEnd, "🌅 Morning Routine (Freshen up, Exercise)", SlotType.routine⟩,
     ⟨cfg.breakfastTime, breakfastEnd, "🍳 Breakfast", SlotType.meal⟩]
  let r := sessionLoop cfg.lunchTime cfg.lunchDur cfg.dinnerTime cfg.dinnerDur
      cfg.sessionDur cfg.breakDur tokens breakfastEnd
  let slots := base ++ r.1
  if hasDinnerSlot slots then slots
  else if r.2 < cfg.dinnerTime then
    slots
      ++ (if 60 ≤ cfg.dinnerTime - r.2 then
            [⟨r.2, cfg.dinnerTime, "🎯 Self-Study / Review", SlotType.study⟩]
          else [])
      ++ [⟨cfg.dinnerTime, cfg.dinnerTime + cfg.dinnerDur, "🍽️ Dinner", SlotType.meal⟩]
  else slots

/-- Insertion into a list kept in descending `weakness_score` order; a new
element goes after all elements with a score at least as large, which is
the tie behaviour of pandas `nlargest` with its default keep-first
policy. -/
def insertDesc (x : SubjectPred) : List SubjectPred → List SubjectPred
  | [] => [x]
  | y :: ys =>
      if y.weakness_score < x.weakness_score then x :: y :: ys
      else y :: insertDesc x ys

/-- Stable descending insertion sort by `weakness_score`. -/
def sortAux : List SubjectPred → List SubjectPred → List SubjectPred
  | acc, [] => acc
  | acc, x :: xs => sortAux (insertDesc x acc) xs

/-- The nlargest-by-weakness subject list of scheduler.py line 348
(`predictions.nlargest` over the weakness_score column, subjects taken):
the first three subjects in stable descending weakness order. -/
def nlargestSubjects (preds : List SubjectPred) : List String :=
  ((sortAux [] preds).take 3).map SubjectPred.subject

/-- Sleep time adjusted for overnight schedules (scheduler.py lines
198-199): a sleep time at or before wake is moved to the next day. -/
def effSleep (cfg : Config) : ℤ :=
  if cfg.sleep ≤ cfg.wake then cfg.sleep + 1440 else cfg.sleep

/-- The fixed Sunday template of scheduler.py lines 347-375.  Indexing
`weak_subjects[0]` on an empty prediction set raises in the source; that
is the `none` branch here. -/
def buildSunday (preds : List SubjectPred) (cfg : Config) : Option (List Slot) :=
  match nlargestSubjects preds with
  | [] => none
  | w0 :: ws =>
      let routineEnd := cfg.wake + cfg.morningRoutine
      let bEnd := cfg.breakfastTime + cfg.breakfastDur
      let lEnd := cfg.lunchTime + cfg.lunchDur
      let second := match ws with
        | [] => w0
        | w1 :: _ => w1
      some
        [⟨cfg.wake, routineEnd, "🌅 Morning Routine", SlotType.routine⟩,
         ⟨cfg.breakfastTime, bEnd, "🍳 Breakfast", SlotType.meal⟩,
         ⟨bEnd, bEnd + 90, "📚 Revision: " ++ w0, SlotType.revision⟩,
         ⟨bEnd + 90, bEnd + 120, "☕ Break", SlotType.rest⟩,
         ⟨bEnd + 120, bEnd + 210, "📚 Revision: " ++ second, SlotType.revision⟩,
         ⟨cfg.lunchTime, lEnd, "🍛 Lunch", SlotType.meal⟩,
         ⟨lEnd, lEnd + 120, "📝 Mock Test / Practice Problems", SlotType.assessment⟩,
         ⟨cfg.dinnerTime, cfg.dinnerTime + cfg.dinnerDur, "🍽️ Dinner", SlotType.meal⟩,
         ⟨cfg.dinnerTime + cfg.dinnerDur, effSleep cfg, "🎮 Leisure / Relaxation", SlotType.free⟩]

/-- The non-Sunday day names, in the order the source iterates them. -/
def days6 : List String :=
  ["Monday", "Tuesday", "Wednesday", "Thursday", "Friday", "Saturday"]

/-- The Monday-to-Saturday part of the produced timetable dict: each day
name paired with its generated slot list. -/
def weekdaysOf (pool : List String) (cfg : Config) : List (String × List Slot) :=
  (days6.zip (assignDays pool cfg.maxSessions)).map
    (fun p => (p.1, buildWeekday cfg p.2))

/-- The body of `generate_smart_timetable` downstream of the pool shuffle:
the full week dict, or the uncaught `IndexError` of the source when
`weak_subjects[0]` is read off an empty prediction set. -/
def generateFrom (preds : List SubjectPred) (pool : List String) (cfg : Config) :
    Except String (List (String × List Slot)) :=
  match buildSunday preds cfg with
  | none => Except.error "IndexError: list index out of range"
  | some sun => Except.ok (weekdaysOf pool cfg ++ [("Sunday", sun)])

/-- The whole of `generate_smart_timetable` (scheduler.py lines 181-377)
with the ambient numpy generator state made explicit: the call seeds the
generator with 42, shuffles the pool, and builds the week. -/
def generate_smart_timetable (g : Nat) (preds : List SubjectPred) (cfg : Config) :
    Except String (List (String × List Slot)) × Nat :=
  let g1 := npSeed 42 g
  let r := npShuffle g1 (subjectPool preds)
  (generateFrom preds r.1 cfg, r.2)

/-- Erase the stop time of the final slot (and hence its derived
duration), keeping everything else. -/
def eraseFinalStop : List Slot → List Slot
  | [] => []
  | [a] => [{a with stop := 0}]
  | a :: b :: rest => a :: eraseFinalStop (b :: rest)

/-- Normalise a week by erasing the stop time of the final Sunday slot:
two weeks agree under this map exactly when they agree everywhere except
possibly in that one stop time. -/
def normWeek (w : List (String × List Slot)) : List (String × List Slot) :=
  w.map fun p => if p.1 = "Sunday" then (p.1, eraseFinalStop p.2) else p

/-- Number of Study-tagged slots carrying the given subject label. -/
def countStudy (l : List Slot) (s : String) : ℕ :=
  l.countP fun t => decide (t.kind = SlotType.study ∧ t.subject = s)

/-- Replace only the sleep time of a configuration. -/
def withSleep (cfg : Config) (s : ℤ) : Config := {cfg with sleep := s}

/-- Clamp an integer into `[lo, hi]`, written the way the spec words it. -/
def clamp (lo hi x : ℤ) : ℤ := min hi (max lo x)

/-- Claim-side reference allocation: `clamp(round(proportion * total_days
* 2), 1, 6)` per subject, equal default of 3 on zero total weakness.  This
follows the wording of the claim; the source function is
`calculate_subject_distribution`. -/
def specRoundedDistribution (preds : List SubjectPred) (total_days : ℚ) :
    List (String × ℤ) :=
  let total := totalWeakness preds
  if total = 0 then
    preds.foldl (fun d p => dictInsert p.subject 3 d) []
  else
    preds.foldl
      (fun d p =>
        dictInsert p.subject
          (clamp 1 6 (round (p.weakness_score / total * total_days * 2))) d) []

/-- Amended reference allocation: as `specRoundedDistribution` but with
truncation toward zero in place of rounding. -/
def specTruncDistribution (preds : List SubjectPred) (total_days : ℚ) :
    List (String × ℤ) :=
  let total := totalWeakness preds
  if total = 0 then
    preds.foldl (fun d p => dictInsert p.subject 3 d) []
  else
    preds.foldl
      (fun d p =>
        dictInsert p.subject
          (clamp 1 6 (ratTrunc (p.weakness_score / total * total_days * 2))) d) []

/-- Claim-side meal rule, following the wording of the claim: insert the
meal when the study block span `[current, current + sd)` would intersect
the meal window `[mt, mt + md)`, or when the block would start within 30
minutes before the meal start. -/
def mealCheckClaim (mt md sd : ℤ) (label : String) (current : ℤ) :
    List Slot × ℤ :=
  if (current < mt + md ∧ mt < current + sd) ∨ (current < mt ∧ mt - current < 30) then
    ([⟨mt, mt + md, label, SlotType.meal⟩], mt + md)
  else ([], current)

/-- The session loop as the claim describes it: the claim-side Lunch rule,
then the claim-side Dinner rule from the updated cursor, then the Study
block, with a Break after every session except the last. -/
def sessionLoopClaim (lt ld dt dd sd bd : ℤ) : List String → ℤ → List Slot × ℤ
  | [], current => ([], current)
  | subject :: rest, current =>
      let p1 := mealCheckClaim lt ld sd "🍛 Lunch" current
      let p2 := mealCheckClaim dt dd sd "🍽️ Dinner" p1.2
      let sEnd := p2.2 + sd
      let study : Slot := ⟨p2.2, sEnd, subject, SlotType.study⟩
      match rest with
      | [] => (p1.1 ++ p2.1 ++ [study], sEnd)
      | r :: rs =>
          let t := sessionLoopClaim lt ld dt dd sd bd (r :: rs) (sEnd + bd)
          (p1.1 ++ p2.1 ++ [study, ⟨sEnd, sEnd + bd, "☕ Break", SlotType.rest⟩] ++ t.1,
           t.2)

/-- Amended meal rule: insert the meal when the block would start strictly
before the meal start time and either the meal starts before the block
would end or the meal starts within 30 minutes of the cursor. -/
def mealCheckAmended (mt md sd : ℤ) (label : String) (current : ℤ) :
    List Slot × ℤ :=
  if current < mt ∧ (mt < current + sd ∨ mt - current < 30) then
    ([⟨mt, mt + md, label, SlotType.meal⟩], mt + md)
  else ([], current)

/-- The session loop as the amended claim describes it. -/
def sessionLoopAmended (lt ld dt dd sd bd : ℤ) : List String → ℤ → List Slot × ℤ
  | [], current => ([], current)
  | subject :: rest, current =>
      let p1 := mealCheckAmended lt ld sd "🍛 Lunch" current
      let p2 := mealCheckAmended dt dd sd "🍽️ Dinner" p1.2
      let sEnd := p2.2 + sd
      let study : Slot := ⟨p2.2, sEnd, subject, SlotType.study⟩
      match rest with
      | [] => (p1.1 ++ p2.1 ++ [study], sEnd)
      | r :: rs =>
          let t := sessionLoopAmended lt ld dt dd sd bd (r :: rs) (sEnd + bd)
          (p1.1 ++ p2.1 ++ [study, ⟨sEnd, sEnd + bd, "☕ Break", SlotType.rest⟩] ++ t.1,
           t.2)

/-- Claim-side token drawing, following the wording of the spec: round-robin with
wraparound over the pool (no exhaustion guard), the same per-day repeat
cap and the same fixed retry budget of 20. -/
def drawLoopClaim (pool : List String) (target : ℕ) :
    ℕ → ℕ → List String → List String × ℕ
  | 0, idx, acc => (acc, idx)
  | fuel + 1, idx, acc =>
      if acc.length < target ∧ pool.length ≠ 0 then
        let subject := pool.getD (idx % pool.length) ""
        if acc.count subject < 2 then
          drawLoopClaim pool target fuel (idx + 1) (acc ++ [subject])
        else
          drawLoopClaim pool target fuel (idx + 1) acc
      else (acc, idx)

/-- Claim-side Monday-to-Saturday assignment with wraparound drawing. -/
def assignGoClaim (pool : List String) (target : ℕ) : ℕ → ℕ → List (List String)
  | 0, _ => []
  | d + 1, idx =>
      let r := drawLoopClaim pool target 20 idx []
      r.1 :: assignGoClaim pool target d r.2

/-- Claim-side weekly token assignment (round-robin with wraparound). -/
def assignDaysClaim (pool : List String) (maxSessions : ℕ) : List (List String) :=
  assignGoClaim pool (min maxSessions 4) 6 0

/-- Modelled from the spec: the defensive `InvalidInput` check on the
ranking step ("fails with InvalidInput if predictions is empty or contains
a negative weakness_score), which is absent from src — the function
`calculate_subject_distribution` of the source performs no validation and
always returns normally. -/
def specRank (preds : List SubjectPred) : Except String (List (String × ℤ)) :=
  if preds = [] ∨ preds.any (fun p => decide (p.weakness_score < 0)) then
    Except.error "InvalidInput"
  else
    Except.ok (calculate_subject_distribution preds 6)

/-- The ranking step of the source wrapped in the same error type as
`specRank`: it cannot fail. -/
def rankE (preds : List SubjectPred) : Except String (List (String × ℤ)) :=
  Except.ok (calculate_subject_distribution preds 6)

/-- A day schedule is sorted by start time with no two slots overlapping:
pairwise, an earlier slot starts strictly earlier and ends no later than
the next one starts. -/
def SortedNoOverlap (l : List Slot) : Prop :=
  List.Pairwise (fun a b => a.start < b.start ∧ a.stop ≤ b.start) l

instance (l : List Slot) : Decidable (SortedNoOverlap l) := by
  unfold SortedNoOverlap; infer_instance

/-- Emission triple: the list `l` of slots is laid out between the cursor
values `c` and `c'`: the cursor does not move backwards, every slot lies
inside `[c, c']` with positive extent, and consecutive slots do not
overlap. -/
def Emits (c c' : ℤ) (l : List Slot) : Prop :=
  c ≤ c' ∧ (∀ s ∈ l, c ≤ s.start ∧ s.start < s.stop ∧ s.stop ≤ c') ∧
    List.Pairwise (fun a b => a.stop ≤ b.start) l

/-- All duration parameters of a configuration are positive, as the source
UI guarantees (its pickers start at 15, 20, 15, 20 minutes and 0.5
hours). -/
def PosDurations (cfg : Config) : Prop :=
  0 < cfg.morningRoutine ∧ 0 < cfg.breakfastDur ∧ 0 < cfg.lunchDur ∧
    0 < cfg.dinnerDur ∧ 0 < cfg.sessionDur ∧ 0 < cfg.breakDur

instance (cfg : Config) : Decidable (PosDurations cfg) := by
  unfold PosDurations; infer_instance

/-- A well-behaved configuration matching the source UI defaults: wake
06:00, sleep 23:00, 30 min breaks, 4 sessions, 1 h sessions, breakfast
07:30 + 30 min, lunch 13:00 + 60 min, dinner 20:00 + 45 min, 45 min
morning routine. -/
def cfgDefault : Config :=
  { wake := 360, sleep := 1380, breakDur := 30, maxSessions := 4, sessionDur := 60,
    breakfastTime := 450, breakfastDur := 30, lunchTime := 780, lunchDur := 60,
    dinnerTime := 1200, dinnerDur := 45, morningRoutine := 45 }

/-- A configuration whose breakfast (07:30) starts before the morning
routine (08:00-08:45) has ended; every other field is as in
`cfgDefault`. -/
def cfgBreakfastEarly : Config :=
  { cfgDefault with wake := 480 }

/-- A single weak subject; its pool is six identical tokens, so every
permutation of the pool is the pool itself. -/
def predsSingle : List SubjectPred := [⟨"Math", 240⟩]

/-- Weakness scores 1 and 7: the proportional share of subject A is 1/8,
and 1/8 * 6 * 2 = 1.5 sits exactly between truncation (1) and rounding
(2).  Both weights are exactly representable as binary floats, so the
rational arithmetic here coincides with the float arithmetic of the
source. -/
def predsThird : List SubjectPred := [⟨"A", 1⟩, ⟨"B", 7⟩]

/-- A prediction set whose weakest subject is named exactly like the
Self-Study filler label the generator emits; the second subject makes the
pool contain two distinct subjects. -/
def predsFiller : List SubjectPred :=
  [⟨"🎯 Self-Study / Review", 240⟩, ⟨"B", 1⟩]

/-- Two subjects with weakness 240 and 0, the boundary scenario of the
spec: the weak subject takes 6 days and the strong one the clamp floor
1. -/
def predsPair : List SubjectPred := [⟨"Math", 240⟩, ⟨"History", 0⟩]

deriving instance DecidableEq for Except

/-- Pairwise descending order by weakness score. -/
def SortedDescW (l : List SubjectPred) : Prop :=
  List.Pairwise (fun a b => b.weakness_score ≤ a.weakness_score) l

theorem emits_nil {c c' : ℤ} (h : c ≤ c') : Emits c c' [] :=
  ⟨h, by simp, by simp⟩

theorem emits_single {c c' : ℤ} {s : Slot} (h1 : c ≤ s.start)
    (h2 : s.start < s.stop) (h3 : s.stop ≤ c') : Emits c c' [s] :=
  ⟨le_trans h1 (le_trans h2.le h3), by simp [h1, h2, h3], by simp⟩

theorem emits_mk {c c' a b : ℤ} {subj : String} {k : SlotType} (h1 : c ≤ a)
    (h2 : a < b) (h3 : b ≤ c') : Emits c c' [⟨a, b, subj, k⟩] :=
  emits_single h1 h2 h3

theorem emits_append {c c1 c2 : ℤ} {l1 l2 : List Slot}
    (h1 : Emits c c1 l1) (h2 : Emits c1 c2 l2) : Emits c c2 (l1 ++ l2) := by
  obtain ⟨hle1, hin1, hp1⟩ := h1
  obtain ⟨hle2, hin2, hp2⟩ := h2
  refine ⟨le_trans hle1 hle2, ?_, ?_⟩
  · intro s hs
    rcases List.mem_append.mp hs with h | h
    · obtain ⟨a, b, d⟩ := hin1 s h
      exact ⟨a, b, le_trans d hle2⟩
    · obtain ⟨a, b, d⟩ := hin2 s h
      exact ⟨le_trans hle1 a, b, d⟩
  · refine List.pairwise_append.mpr ⟨hp1, hp2, ?_⟩
    intro a ha b hb
    exact le_trans (hin1 a ha).2.2 (hin2 b hb).1

theorem mealCheck_emits {mt md sd : ℤ} {label : String} (hmd : 0 < md)
    (current : ℤ) :
    Emits current (mealCheck mt md sd label current).2
      (mealCheck mt md sd label current).1 := by
  unfold mealCheck
  split
  case isTrue h =>
    have hcm : current < mt := by rcases h with ⟨h1, _⟩ | ⟨h1, _⟩ <;> exact h1
    exact emits_mk hcm.le (by omega) le_rfl
  case isFalse h => exact emits_nil le_rfl

theorem sessionLoop_emits {lt ld dt dd sd bd : ℤ} (hld : 0 < ld) (hdd : 0 < dd)
    (hsd : 0 < sd) (hbd : 0 < bd) :
    ∀ (tokens : List String) (current : ℤ),
      Emits current (sessionLoop lt ld dt dd sd bd tokens current).2
        (sessionLoop lt ld dt dd sd bd tokens current).1
  | [], current => emits_nil le_rfl
  | [subject], current => by
      have e1 := @mealCheck_emits lt ld sd "🍛 Lunch" hld current
      have e2 := @mealCheck_emits dt dd sd "🍽️ Dinner" hdd
        (mealCheck lt ld sd "🍛 Lunch" current).2
      simp only [sessionLoop]
      exact emits_append (emits_append e1 e2) (emits_mk le_rfl (by omega) le_rfl)
  | subject :: r :: rs, current => by
      have e1 := @mealCheck_emits lt ld sd "🍛 Lunch" hld current
      have e2 := @mealCheck_emits dt dd sd "🍽️ Dinner" hdd
        (mealCheck lt ld sd "🍛 Lunch" current).2
      have e3 := @sessionLoop_emits lt ld dt dd sd bd
        hld hdd hsd hbd (r :: rs)
        ((mealCheck dt dd sd "🍽️ Dinner" (mealCheck lt ld sd "🍛 Lunch" current).2).2 + sd + bd)
      simp only [sessionLoop]
      refine emits_append (emits_append (emits_append e1 e2) ?_) e3
      have h4 : Emits (mealCheck dt dd sd "🍽️ Dinner" (mealCheck lt ld sd "🍛 Lunch" current).2).2
          ((mealCheck dt dd sd "🍽️ Dinner" (mealCheck lt ld sd "🍛 Lunch" current).2).2 + sd)
          [⟨(mealCheck dt dd sd "🍽️ Dinner" (mealCheck lt ld sd "🍛 Lunch" current).2).2,
            (mealCheck dt dd sd "🍽️ Dinner" (mealCheck lt ld sd "🍛 Lunch" current).2).2 + sd,
            subject, SlotType.study⟩] :=
        emits_mk le_rfl (by omega) le_rfl
      have h5 : Emits ((mealCheck dt dd sd "🍽️ Dinner" (mealCheck lt ld sd "🍛 Lunch" current).2).2 + sd)
          ((mealCheck dt dd sd "🍽️ Dinner" (mealCheck lt ld sd "🍛 Lunch" current).2).2 + sd + bd)
          [⟨(mealCheck dt dd sd "🍽️ Dinner" (mealCheck lt ld sd "🍛 Lunch" current).2).2 + sd,
            (mealCheck dt dd sd "🍽️ Dinner" (mealCheck lt ld sd "🍛 Lunch" current).2).2 + sd + bd,
            "☕ Break", SlotType.rest⟩] :=
        emits_mk le_rfl (by omega) le_rfl
      exact emits_append h4 h5

theorem emits_sortedNoOverlap {c c' : ℤ} {l : List Slot} (h : Emits c c' l) :
    SortedNoOverlap l := by
  obtain ⟨-, hin, hp⟩ := h
  unfold SortedNoOverlap
  refine List.Pairwise.imp_of_mem ?_ hp
  intro a b ha _ hab
  exact ⟨lt_of_lt_of_le (hin a ha).2.1 hab, hab⟩

theorem buildWeekday_emits {cfg : Config} (hp : PosDurations cfg)
    (hbr : cfg.wake + cfg.morningRoutine ≤ cfg.breakfastTime)
    (tokens : List String) :
    ∃ e, Emits cfg.wake e (buildWeekday cfg tokens) := by
  obtain ⟨hmr, hbd, hld, hdd, hsd, hbk⟩ := hp
  have ebase : Emits cfg.wake (cfg.breakfastTime + cfg.breakfastDur)
      [⟨cfg.wake, cfg.wake + cfg.morningRoutine,
        "🌅 Morning Routine (Freshen up, Exercise)", SlotType.routine⟩,
       ⟨cfg.breakfastTime, cfg.breakfastTime + cfg.breakfastDur, "🍳 Breakfast",
        SlotType.meal⟩] := by
    have h1 := @emits_mk cfg.wake (cfg.wake + cfg.morningRoutine) cfg.wake
      (cfg.wake + cfg.morningRoutine)
      "🌅 Morning Routine (Freshen up, Exercise)" SlotType.routine
      le_rfl (by omega) le_rfl
    have h2 := @emits_mk (cfg.wake + cfg.morningRoutine)
      (cfg.breakfastTime + cfg.breakfastDur) cfg.breakfastTime
      (cfg.breakfastTime + cfg.breakfastDur)
      "🍳 Breakfast" SlotType.meal hbr (by omega) le_rfl
    exact emits_append h1 h2
  have ebody := @sessionLoop_emits cfg.lunchTime cfg.lunchDur cfg.dinnerTime
    cfg.dinnerDur cfg.sessionDur cfg.breakDur
    hld hdd hsd hbk tokens (cfg.breakfastTime + cfg.breakfastDur)
  have emain := emits_append ebase ebody
  simp only [buildWeekday]
  split
  · exact ⟨_, emain⟩
  split
  case isTrue hlt =>
    split
    case isTrue hgap =>
      refine ⟨cfg.dinnerTime + cfg.dinnerDur,
        @emits_append cfg.wake cfg.dinnerTime (cfg.dinnerTime + cfg.dinnerDur)
          _ _ (emits_append emain ?_) ?_⟩
      · exact emits_mk le_rfl (by omega) le_rfl
      · exact emits_mk le_rfl (by omega) le_rfl
    case isFalse hgap =>
      refine ⟨cfg.dinnerTime + cfg.dinnerDur,
        @emits_append cfg.wake (sessionLoop cfg.lunchTime cfg.lunchDur cfg.dinnerTime
          cfg.dinnerDur cfg.sessionDur cfg.breakDur tokens
          (cfg.breakfastTime + cfg.breakfastDur)).2
          (cfg.dinnerTime + cfg.dinnerDur) _ _ (emits_append emain ?_) ?_⟩
      · exact emits_nil le_rfl
      · exact emits_mk (by omega) (by omega) le_rfl
  case isFalse hlt => exact ⟨_, emain⟩

theorem dist_single : calculate_subject_distribution predsSingle 6 = [("Math", 6)] := by
  norm_num [calculate_subject_distribution, totalWeakness, predsSingle, allocDays,
    ratTrunc, dictInsert, max_def, min_def]

theorem pool_single :
    subjectPool predsSingle = ["Math", "Math", "Math", "Math", "Math", "Math"] := by
  rw [subjectPool, dist_single]; decide

theorem dist_third :
    calculate_subject_distribution predsThird 6 = [("A", 1), ("B", 6)] := by
  norm_num [calculate_subject_distribution, totalWeakness, predsThird, allocDays,
    ratTrunc, dictInsert, max_def, min_def] <;> decide

theorem rdist_third : specRoundedDistribution predsThird 6 = [("A", 2), ("B", 6)] := by
  norm_num [specRoundedDistribution, totalWeakness, predsThird, clamp, round_eq,
    dictInsert, max_def, min_def] <;> decide

theorem dist_filler : calculate_subject_distribution predsFiller 6 =
    [("🎯 Self-Study / Review", 6), ("B", 1)] := by
  norm_num [calculate_subject_distribution, totalWeakness, predsFiller, allocDays,
    ratTrunc, dictInsert, max_def, min_def] <;> decide

theorem pool_filler : subjectPool predsFiller =
    ["🎯 Self-Study / Review", "🎯 Self-Study / Review", "🎯 Self-Study / Review",
     "🎯 Self-Study / Review", "🎯 Self-Study / Review", "🎯 Self-Study / Review", "B"] := by
  rw [subjectPool, dist_filler]; decide

theorem dist_pair :
    calculate_subject_distribution predsPair 6 = [("Math", 6), ("History", 1)] := by
  norm_num [calculate_subject_distribution, totalWeakness, predsPair, allocDays,
    ratTrunc, dictInsert, max_def, min_def] <;> decide

theorem pool_pair : subjectPool predsPair =
    ["Math", "Math", "Math", "Math", "Math", "Math", "History"] := by
  rw [subjectPool, dist_pair]; decide

theorem drawLoop_length_le {pool : List String} {target : ℕ} :
    ∀ (fuel idx : ℕ) (acc : List String), acc.length ≤ target →
      (drawLoop pool target fuel idx acc).1.length ≤ target
  | 0, _, _, h => h
  | fuel + 1, idx, acc, h => by
      simp only [drawLoop]
      split
      case isTrue hc =>
        split
        · exact drawLoop_length_le fuel (idx + 1) _ (by simp; omega)
        · exact drawLoop_length_le fuel (idx + 1) acc h
      case isFalse => exact h

theorem drawLoop_progress {pool : List String} {target : ℕ} :
    ∀ (fuel idx : ℕ) (acc : List String), idx ≤ pool.length →
      idx ≤ (drawLoop pool target fuel idx acc).2 ∧
        (drawLoop pool target fuel idx acc).2 ≤ pool.length ∧
        (drawLoop pool target fuel idx acc).1.length + idx ≤
          acc.length + (drawLoop pool target fuel idx acc).2
  | 0, idx, acc, h => ⟨le_rfl, h, by simp [drawLoop]⟩
  | fuel + 1, idx, acc, h => by
      simp only [drawLoop]
      split
      case isTrue hc =>
        have hidx : idx + 1 ≤ pool.length := hc.2
        split
        · have := @drawLoop_progress pool target fuel (idx + 1)
            (acc ++ [pool.getD (idx % pool.length) ""]) hidx
          refine ⟨by omega, this.2.1, ?_⟩
          have hl : (acc ++ [pool.getD (idx % pool.length) ""]).length = acc.length + 1 := by
            simp
          omega
        · have := @drawLoop_progress pool target fuel (idx + 1) acc hidx
          exact ⟨by omega, this.2.1, by omega⟩
      case isFalse => exact ⟨le_rfl, h, by simp⟩

theorem drawLoop_count_le {pool : List String} {target : ℕ} {s : String} :
    ∀ (fuel idx : ℕ) (acc : List String), acc.count s ≤ 2 →
      (drawLoop pool target fuel idx acc).1.count s ≤ 2
  | 0, _, _, h => h
  | fuel + 1, idx, acc, h => by
      simp only [drawLoop]
      split
      case isTrue hc =>
        split
        case isTrue hcnt =>
          refine drawLoop_count_le fuel (idx + 1) _ ?_
          set x := pool.getD (idx % pool.length) "" with hx
          by_cases hs : x = s
          · subst hs
            have hone : List.count x (acc ++ [x]) = List.count x acc + 1 := by simp
            omega
          · have hzero : List.count s (acc ++ [x]) = List.count s acc := by
              simp [List.count_append, List.count_singleton', Ne.symm hs]
            omega
        case isFalse => exact drawLoop_count_le fuel (idx + 1) acc h
      case isFalse => exact h

theorem assignGo_length_le {pool : List String} {target : ℕ} :
    ∀ (d idx : ℕ), ∀ ts ∈ assignGo pool target d idx, ts.length ≤ target
  | 0, _ => by simp [assignGo]
  | d + 1, idx => by
      intro ts hts
      simp only [assignGo] at hts
      rcases List.mem_cons.mp hts with h | h
      · exact h ▸ drawLoop_length_le 20 idx [] (by simp)
      · exact assignGo_length_le d _ ts h

theorem assignGo_sum_le {pool : List String} {target : ℕ} :
    ∀ (d idx : ℕ), idx ≤ pool.length →
      ((assignGo pool target d idx).map List.length).sum + idx ≤ pool.length
  | 0, idx, h => by simpa [assignGo] using h
  | d + 1, idx, h => by
      simp only [assignGo, List.map_cons, List.sum_cons]
      have h1 := @drawLoop_progress pool target 20 idx [] h
      have h2 := @assignGo_sum_le pool target d
        (drawLoop pool target 20 idx []).2 h1.2.1
      simp only [List.length_nil] at h1
      omega

theorem assignGo_count_le {pool : List String} {target : ℕ} {s : String} :
    ∀ (d idx : ℕ), ∀ ts ∈ assignGo pool target d idx, ts.count s ≤ 2
  | 0, _ => by simp [assignGo]
  | d + 1, idx => by
      intro ts hts
      simp only [assignGo] at hts
      rcases List.mem_cons.mp hts with h | h
      · exact h ▸ drawLoop_count_le 20 idx [] (by simp)
      · exact assignGo_count_le d _ ts h

theorem mem_dictInsert {e : String × ℤ} {k : String} {v : ℤ} :
    ∀ {d : List (String × ℤ)}, e ∈ dictInsert k v d → e = (k, v) ∨ e ∈ d
  | [], h => Or.inl (by simpa [dictInsert] using h)
  | (k2, v2) :: rest, h => by
      rw [dictInsert] at h
      split at h
      · rcases List.mem_cons.mp h with h | h
        · exact Or.inl h
        · exact Or.inr (List.mem_cons.mpr (Or.inr h))
      · rcases List.mem_cons.mp h with h | h
        · exact Or.inr (h ▸ List.mem_cons_self _ _)
        · rcases mem_dictInsert h with h | h
          · exact Or.inl h
          · exact Or.inr (List.mem_cons.mpr (Or.inr h))

theorem foldl_dictInsert_forall {P : ℤ → Prop} (f : SubjectPred → ℤ)
    (hf : ∀ p : SubjectPred, P (f p)) :
    ∀ (l : List SubjectPred) (d : List (String × ℤ)), (∀ e ∈ d, P e.2) →
      ∀ e ∈ l.foldl (fun d p => dictInsert p.subject (f p) d) d, P e.2
  | [], d, hd => hd
  | p :: ps, d, hd => by
      rw [List.foldl_cons]
      refine foldl_dictInsert_forall f hf ps _ ?_
      intro e he
      rcases mem_dictInsert he with h | h
      · rw [h]; exact hf p
      · exact hd e h

theorem ratTrunc_mono {a b : ℚ} (h : a ≤ b) : ratTrunc a ≤ ratTrunc b := by
  unfold ratTrunc
  split
  case isTrue ha =>
    split
    case isTrue hb => exact Int.ceil_mono h
    case isFalse hb =>
      have h1 : (⌈a⌉ : ℤ) ≤ 0 := by
        have : a ≤ ((0 : ℤ) : ℚ) := by exact_mod_cast ha.le
        simpa using Int.ceil_le.mpr this
      have h2 : (0 : ℤ) ≤ ⌊b⌋ := Int.floor_nonneg.mpr (not_lt.mp hb)
      omega
  case isFalse ha =>
    split
    case isTrue hb => exact absurd (lt_of_le_of_lt h hb) ha
    case isFalse hb => exact Int.floor_mono h

theorem allocDays_mono {w1 w2 total : ℚ} (ht : 0 < total) (h : w1 ≤ w2) :
    allocDays 6 w1 total ≤ allocDays 6 w2 total := by
  unfold allocDays
  have harg : w1 / total * 6 * 2 ≤ w2 / total * 6 * 2 := by gcongr
  exact max_le_max le_rfl (min_le_min le_rfl (ratTrunc_mono harg))

theorem allocDays_range (total_days w total : ℚ) :
    1 ≤ allocDays total_days w total ∧ allocDays total_days w total ≤ 6 := by
  unfold allocDays
  exact ⟨le_max_left _ _, max_le (by norm_num) (min_le_left _ _)⟩

theorem clamp_eq_max_min (x : ℤ) : clamp 1 6 x = max 1 (min 6 x) := by
  unfold clamp
  omega

theorem foldl_congr_fun {α β : Type} {f g : β → α → β} (h : ∀ b a, f b a = g b a) :
    ∀ (l : List α) (init : β), l.foldl f init = l.foldl g init
  | [], _ => rfl
  | x :: xs, init => by
      rw [List.foldl_cons, List.foldl_cons, h]
      exact foldl_congr_fun h xs _

theorem insertDesc_perm (x : SubjectPred) :
    ∀ l : List SubjectPred, List.Perm (insertDesc x l) (x :: l)
  | [] => List.Perm.refl _
  | y :: ys => by
      rw [insertDesc]
      split
      · exact List.Perm.refl _
      · exact ((insertDesc_perm x ys).cons y).trans (List.Perm.swap x y ys)

theorem insertDesc_sorted {x : SubjectPred} :
    ∀ {l : List SubjectPred}, SortedDescW l → SortedDescW (insertDesc x l)
  | [], _ => by simp [insertDesc, SortedDescW]
  | y :: ys, h => by
      rw [insertDesc]
      have hy := (List.pairwise_cons.mp h).1
      have hys := (List.pairwise_cons.mp h).2
      split
      case isTrue hlt =>
        refine List.pairwise_cons.mpr ⟨?_, h⟩
        intro b hb
        rcases List.mem_cons.mp hb with rfl | hb
        · exact hlt.le
        · exact le_trans (hy b hb) hlt.le
      case isFalse hge =>
        refine List.pairwise_cons.mpr ⟨?_, insertDesc_sorted hys⟩
        intro b hb
        rcases List.mem_cons.mp ((insertDesc_perm x ys).mem_iff.mp hb) with rfl | hb
        · exact not_lt.mp hge
        · exact hy b hb

theorem sortAux_perm :
    ∀ (l acc : List SubjectPred), List.Perm (sortAux acc l) (acc ++ l)
  | [], acc => by simp [sortAux]
  | x :: xs, acc => by
      rw [sortAux]
      exact ((sortAux_perm xs _).trans
        ((insertDesc_perm x acc).append_right xs)).trans List.perm_middle.symm

theorem sortAux_sorted : ∀ (l acc : List SubjectPred), SortedDescW acc →
    SortedDescW (sortAux acc l)
  | [], _, h => h
  | x :: xs, acc, h => by
      rw [sortAux]
      exact sortAux_sorted xs _ (insertDesc_sorted h)

theorem mealCheck_eq_amended (mt md sd : ℤ) (label : String) (current : ℤ) :
    mealCheck mt md sd label current = mealCheckAmended mt md sd label current := by
  have hiff : ((current < mt ∧ mt < current + sd) ∨ (current < mt ∧ mt - current < 30)) ↔
      (current < mt ∧ (mt < current + sd ∨ mt - current < 30)) := by tauto
  simp only [mealCheck, mealCheckAmended, hiff]

/-- C2 counterexample: with lunch at 13:00 for 60 minutes, a 60-minute
session and the cursor at 13:30 (inside the lunch window), the rule of
the claim inserts the Lunch block first while the source, whose check requires
the cursor to be strictly before lunch start, places the Study block
directly. -/
theorem c2_counterexample :
    sessionLoop 780 60 1200 45 60 30 ["Math"] 810 ≠
      sessionLoopClaim 780 60 1200 45 60 30 ["Math"] 810 := by decide

/-- C2 (amended): before each Study block the source inserts Lunch exactly
when the block would start strictly before Lunch start and either end
after Lunch start or start within 30 minutes of it, advancing the cursor
past the meal, and then applies the same rule to Dinner before placing the
Study block: the session loop equals the loop built from that described
rule. -/
theorem c2_meal_insertion_described (lt ld dt dd sd bd : ℤ) :
    ∀ (tokens : List String) (current : ℤ),
      sessionLoop lt ld dt dd sd bd tokens current =
        sessionLoopAmended lt ld dt dd sd bd tokens current
  | [], _ => rfl
  | [subject], current => by
      simp only [sessionLoop, sessionLoopAmended, mealCheck_eq_amended]
  | subject :: r :: rs, current => by
      simp only [sessionLoop, sessionLoopAmended, mealCheck_eq_amended,
        c2_meal_insertion_described lt ld dt dd sd bd (r :: rs)]

/-- C3 counterexample: at weakness scores 1 and 7 the share of subject A
is 1/8, so `proportion * 6 * 2 = 1.5`; the rounded reference of the claim
allocates A two days while the truncating
`calculate_subject_distribution` of the source allocates one. -/
theorem c3_counterexample :
    predsThird ≠ [] ∧
      calculate_subject_distribution predsThird 6 ≠ specRoundedDistribution predsThird 6 := by
  refine ⟨by decide, ?_⟩
  rw [dist_third, rdist_third]
  decide

/-- C3 (amended): for every prediction list the day allocation equals the
truncating reference definition: every subject gets 3 days when the total
weakness is zero, and otherwise
`clamp(trunc(weakness / total * total_days * 2), 1, 6)` days. -/
theorem c3_distribution_truncated (preds : List SubjectPred) (total_days : ℚ) :
    calculate_subject_distribution preds total_days =
      specTruncDistribution preds total_days := by
  simp only [calculate_subject_distribution, specTruncDistribution]
  split
  · rfl
  · refine foldl_congr_fun (fun d p => ?_) preds []
    rw [allocDays, clamp_eq_max_min]

/-- C4: when the total weakness score is strictly positive, every entry of
the produced day allocation lies in [1, 6], and the allocation computed
for a prediction with a larger weakness score is at least the allocation
computed for one with a smaller score. -/
theorem c4_range_monotone (preds : List SubjectPred)
    (ht : 0 < totalWeakness preds) :
    (∀ e ∈ calculate_subject_distribution preds 6, 1 ≤ e.2 ∧ e.2 ≤ 6) ∧
      ∀ p ∈ preds, ∀ q ∈ preds, q.weakness_score ≤ p.weakness_score →
        allocDays 6 q.weakness_score (totalWeakness preds) ≤
          allocDays 6 p.weakness_score (totalWeakness preds) := by
  constructor
  · simp only [calculate_subject_distribution]
    rw [if_neg ht.ne']
    exact foldl_dictInsert_forall (P := fun v => 1 ≤ v ∧ v ≤ 6)
      (fun p => allocDays 6 p.weakness_score (totalWeakness preds))
      (fun p => allocDays_range 6 p.weakness_score (totalWeakness preds))
      preds [] (by simp)
  · intro p _ q _ h
    exact allocDays_mono ht h

/-- C4 witness at the boundary scenario of the spec: weakness 240 and 0. -/
theorem c4_range_monotone_witness :
    0 < totalWeakness predsPair ∧
      ((∀ e ∈ calculate_subject_distribution predsPair 6, 1 ≤ e.2 ∧ e.2 ≤ 6) ∧
        ∀ p ∈ predsPair, ∀ q ∈ predsPair, q.weakness_score ≤ p.weakness_score →
          allocDays 6 q.weakness_score (totalWeakness predsPair) ≤
            allocDays 6 p.weakness_score (totalWeakness predsPair)) := by
  have ht : 0 < totalWeakness predsPair := by norm_num [totalWeakness, predsPair]
  exact ⟨ht, c4_range_monotone predsPair ht⟩

theorem drawLoop_exhausted {pool : List String} {target : ℕ} :
    ∀ (fuel idx : ℕ) (acc : List String), pool.length ≤ idx →
      drawLoop pool target fuel idx acc = (acc, idx)
  | 0, _, _, _ => rfl
  | _ + 1, idx, acc, h => by
      simp only [drawLoop]
      rw [if_neg (show ¬(acc.length < target ∧ idx < pool.length) from
        fun hc => absurd hc.2 (not_lt.mpr h))]

theorem assignGo_exhausted {pool : List String} {target : ℕ} :
    ∀ (d idx : ℕ), pool.length ≤ idx →
      assignGo pool target d idx = List.replicate d []
  | 0, _, _ => rfl
  | d + 1, idx, h => by
      simp only [assignGo]
      rw [drawLoop_exhausted 20 idx [] h]
      show [] :: assignGo pool target d idx = List.replicate (d + 1) []
      rw [assignGo_exhausted d idx h, List.replicate_succ]

/-- C6 counterexample: the pool of the single weak subject has six tokens;
the drawing of the source, whose loop guard stops once the running pool index
reaches the pool length, exhausts the pool on Monday and leaves
Tuesday..Saturday without any token, while the round-robin
wraparound drawing fills every day — the two assignments differ. -/
theorem c6_counterexample :
    subjectPool predsSingle ≠ [] ∧
      assignDays (subjectPool predsSingle) 8 ≠
        assignDaysClaim (subjectPool predsSingle) 8 := by
  simp only [pool_single]
  exact ⟨by decide, by decide⟩

/-- C6 (amended): tokens are drawn from the shuffled pool in order without
wraparound: each pool entry is considered at most once, so every day
receives at most `min(max_sessions_per_day, 4)` subject-tokens, the total
number of tokens across Monday..Saturday never exceeds the pool size, and
from any point of the six-day run at which the running pool index has
reached the pool length (the pool is exhausted), every remaining day
receives no tokens at all. -/
theorem c6_no_wraparound_bounds (pool : List String) (maxSessions : ℕ) :
    (∀ ts ∈ assignDays pool maxSessions, ts.length ≤ min maxSessions 4) ∧
      ((assignDays pool maxSessions).map List.length).sum ≤ pool.length ∧
      ∀ d idx, pool.length ≤ idx →
        assignGo pool (min maxSessions 4) d idx = List.replicate d [] := by
  refine ⟨assignGo_length_le 6 0, by simpa using assignGo_sum_le 6 0 (Nat.zero_le _), ?_⟩
  intro d idx h
  exact assignGo_exhausted d idx h

/-- C6 witness: the literal six-token single-subject pool, with the
remaining five days drawn from an index at the pool length. -/
theorem c6_no_wraparound_bounds_witness :
    (["Math", "Math", "Math", "Math", "Math", "Math"] : List String).length ≤ 6 ∧
      assignGo ["Math", "Math", "Math", "Math", "Math", "Math"] (min 8 4) 5 6 =
        List.replicate 5 [] :=
  ⟨by decide,
    (c6_no_wraparound_bounds ["Math", "Math", "Math", "Math", "Math", "Math"] 8).2.2
      5 6 (by decide)⟩

/-- C9: timetable generation is deterministic: the call re-seeds the
pseudo-random generator itself (`np.random.seed(42)` before the shuffle),
so the produced week is independent of the generator state left behind by
any prior call. -/
theorem c9_seed_determinism (g1 g2 : Nat) (preds : List SubjectPred) (cfg : Config) :
    (generate_smart_timetable g1 preds cfg).1 =
      (generate_smart_timetable g2 preds cfg).1 := rfl

/-- C1 (amended): for every pool order and every configuration with
positive durations whose breakfast does not start before the morning
routine has ended, each generated Monday..Saturday day schedule is sorted
by start time and no two of its slots overlap. -/
theorem c1_weekday_sorted_nonoverlap (pool : List String) (cfg : Config)
    (hp : PosDurations cfg)
    (hbr : cfg.wake + cfg.morningRoutine ≤ cfg.breakfastTime) :
    ∀ p ∈ weekdaysOf pool cfg, SortedNoOverlap p.2 := by
  intro p hpmem
  obtain ⟨q, hq, rfl⟩ := List.mem_map.mp hpmem
  obtain ⟨e, he⟩ := buildWeekday_emits hp hbr q.2
  exact emits_sortedNoOverlap he

/-- C1 counterexample: with wake at 08:00 (morning routine until 08:45)
but breakfast still configured at 07:30, the generated Monday schedule is
not sorted by start time — the claim does not hold for every
ScheduleConfig. -/
theorem c1_counterexample :
    ¬ ∀ p ∈ weekdaysOf (npShuffle (npSeed 42 0) (subjectPool predsSingle)).1
        cfgBreakfastEarly, SortedNoOverlap p.2 := by
  simp only [pool_single]
  decide

/-- C1 witness: the default configuration and the boundary prediction
pair. -/
theorem c1_weekday_sorted_nonoverlap_witness :
    (PosDurations cfgDefault ∧
        cfgDefault.wake + cfgDefault.morningRoutine ≤ cfgDefault.breakfastTime) ∧
      ∀ p ∈ weekdaysOf (npShuffle (npSeed 42 0) (subjectPool predsPair)).1 cfgDefault,
        SortedNoOverlap p.2 :=
  ⟨⟨by decide, by decide⟩,
    c1_weekday_sorted_nonoverlap _ cfgDefault (by decide) (by decide)⟩

theorem mealCheck_countStudy (mt md sd : ℤ) (label : String) (current : ℤ)
    (s : String) : countStudy (mealCheck mt md sd label current).1 s = 0 := by
  unfold mealCheck countStudy
  split <;> simp

theorem sessionLoop_countStudy (lt ld dt dd sd bd : ℤ) (s : String) :
    ∀ (tokens : List String) (current : ℤ),
      countStudy (sessionLoop lt ld dt dd sd bd tokens current).1 s =
        tokens.count s
  | [], current => by simp [sessionLoop, countStudy]
  | [subject], current => by
      simp only [sessionLoop, countStudy, List.countP_append]
      rw [← countStudy, ← countStudy, ← countStudy, mealCheck_countStudy,
        mealCheck_countStudy]
      by_cases hsub : subject = s
      · subst hsub
        simp [countStudy, List.countP_cons, List.count_singleton]
      · simp [countStudy, List.countP_cons, hsub, List.count_singleton', Ne.symm hsub]
  | subject :: r :: rs, current => by
      simp only [sessionLoop, countStudy, List.countP_append]
      rw [← countStudy, ← countStudy, ← countStudy, ← countStudy,
        mealCheck_countStudy, mealCheck_countStudy,
        sessionLoop_countStudy lt ld dt dd sd bd s (r :: rs)]
      by_cases hsub : subject = s
      · subst hsub
        simp [countStudy, List.countP_cons, List.count_cons]
        omega
      · simp [countStudy, List.countP_cons, hsub, List.count_cons, Ne.symm hsub]

theorem buildWeekday_countStudy (cfg : Config) (tokens : List String)
    (s : String) (hs : s ≠ "🎯 Self-Study / Review") :
    countStudy (buildWeekday cfg tokens) s = tokens.count s := by
  have hbase : countStudy
      [⟨cfg.wake, cfg.wake + cfg.morningRoutine,
        "🌅 Morning Routine (Freshen up, Exercise)", SlotType.routine⟩,
       ⟨cfg.breakfastTime, cfg.breakfastTime + cfg.breakfastDur, "🍳 Breakfast",
        SlotType.meal⟩] s = 0 := by
    simp [countStudy]
  have hsl := sessionLoop_countStudy cfg.lunchTime cfg.lunchDur cfg.dinnerTime
    cfg.dinnerDur cfg.sessionDur cfg.breakDur s tokens
    (cfg.breakfastTime + cfg.breakfastDur)
  simp only [buildWeekday]
  split
  · simp only [countStudy, List.countP_append]
    rw [← countStudy, ← countStudy, hbase, hsl]
    omega
  split
  · simp only [countStudy, List.countP_append]
    rw [← countStudy, ← countStudy, ← countStudy, ← countStudy, hbase, hsl]
    have hfill : ∀ l : List Slot,
        (l = [⟨(sessionLoop cfg.lunchTime cfg.lunchDur cfg.dinnerTime cfg.dinnerDur
            cfg.sessionDur cfg.breakDur tokens (cfg.breakfastTime + cfg.breakfastDur)).2,
            cfg.dinnerTime, "🎯 Self-Study / Review", SlotType.study⟩] ∨ l = []) →
        countStudy l s = 0 := by
      rintro l (rfl | rfl)
      · simp [countStudy, Ne.symm hs]
      · simp [countStudy]
    rw [hfill _ (by split <;> simp)]
    simp [countStudy]
  · simp only [countStudy, List.countP_append]
    rw [← countStudy, ← countStudy, hbase, hsl]
    omega

/-- C7 (amended): for every pool order and every configuration, any
subject other than the Self-Study/Review filler label appears at most
twice among the Study blocks of a generated day (the filler block, which the
source also tags Study, can push a subject named exactly like it to
three). -/
theorem c7_daily_study_cap (pool : List String) (cfg : Config) (s : String)
    (hs : s ≠ "🎯 Self-Study / Review") :
    ∀ p ∈ weekdaysOf pool cfg, countStudy p.2 s ≤ 2 := by
  intro p hp
  obtain ⟨q, hq, rfl⟩ := List.mem_map.mp hp
  have hq2 : q.2 ∈ assignGo pool (min cfg.maxSessions 4) 6 0 := (List.of_mem_zip hq).2
  rw [buildWeekday_countStudy cfg q.2 s hs]
  exact assignGo_count_le 6 0 q.2 hq2

/-- C7 counterexample: a prediction set containing a subject literally
named like the Self-Study filler label, together with a second subject, a
pool of two distinct subjects; on Monday that subject occurs twice among
the drawn sessions and a third time as the Study-tagged filler block, so
it appears three times among the Monday Study blocks. -/
theorem c7_counterexample :
    2 ≤ (npShuffle (npSeed 42 0) (subjectPool predsFiller)).1.dedup.length ∧
      ¬ ∀ p ∈ weekdaysOf (npShuffle (npSeed 42 0) (subjectPool predsFiller)).1
          cfgDefault, ∀ q ∈ predsFiller, countStudy p.2 q.subject ≤ 2 := by
  simp only [pool_filler]
  exact ⟨by decide, by decide⟩

/-- C7 witness: the default configuration over the pool of the boundary pair,
checking the subject Math on Monday. -/
theorem c7_daily_study_cap_witness :
    ("Math" ≠ "🎯 Self-Study / Review") ∧
      ∀ p ∈ weekdaysOf (npShuffle (npSeed 42 0) (subjectPool predsPair)).1 cfgDefault,
        countStudy p.2 "Math" ≤ 2 :=
  ⟨by decide, c7_daily_study_cap _ cfgDefault "Math" (by decide)⟩

theorem assignGo_length (pool : List String) (target : ℕ) :
    ∀ (d idx : ℕ), (assignGo pool target d idx).length = d
  | 0, _ => rfl
  | d + 1, idx => by
      simp only [assignGo, List.length_cons]
      rw [assignGo_length pool target d]

theorem weekdaysOf_names (pool : List String) (cfg : Config) :
    (weekdaysOf pool cfg).map Prod.fst = days6 := by
  unfold weekdaysOf
  rw [List.map_map]
  have hcomp : (Prod.fst ∘ fun p : String × List String =>
      (p.1, buildWeekday cfg p.2)) = Prod.fst := rfl
  rw [hcomp]
  refine List.map_fst_zip _ _ ?_
  rw [assignDays, assignGo_length]
  decide

theorem nlargestSubjects_eq_nil_iff (preds : List SubjectPred) :
    nlargestSubjects preds = [] ↔ preds = [] := by
  constructor
  · intro h
    have hperm := sortAux_perm preds []
    unfold nlargestSubjects at h
    rw [List.map_eq_nil] at h
    cases hsort : sortAux [] preds with
    | nil =>
        rw [hsort] at hperm
        simpa using hperm.symm.eq_nil
    | cons a t =>
        rw [hsort] at h
        simp [List.take_succ_cons] at h
  · intro h
    subst h
    rfl

theorem buildSunday_eq_none_iff (preds : List SubjectPred) (cfg : Config) :
    buildSunday preds cfg = none ↔ preds = [] := by
  rw [← nlargestSubjects_eq_nil_iff preds]
  unfold buildSunday
  cases nlargestSubjects preds with
  | nil => simp
  | cons a t => simp

/-- C8 counterexample: the ranking of the source performs no defensive check —
on the empty prediction list it returns an empty allocation normally
instead of failing with InvalidInput — and the week builder fails with the
index error of the Sunday weakest-subject lookup, not with an InsufficientData
check on the empty allocation. -/
theorem c8_counterexample :
    rankE [] ≠ specRank [] ∧
      generateFrom [] [] cfgDefault =
        Except.error "IndexError: list index out of range" :=
  ⟨by intro h; simp [rankE, specRank] at h, rfl⟩

/-- C8 (amended): the core performs no defensive validation: week building
fails (with an index error from the subject lookup of the Sunday template)
exactly when the prediction list is empty, and for every non-empty
prediction list the caller receives a complete 7-day WeekSchedule with no
failure. -/
theorem c8_total_pipeline (preds : List SubjectPred) (pool : List String)
    (cfg : Config) :
    (preds = [] →
        generateFrom preds pool cfg =
          Except.error "IndexError: list index out of range") ∧
      (preds ≠ [] → ∃ w, generateFrom preds pool cfg = Except.ok w ∧
        w.map Prod.fst = ["Monday", "Tuesday", "Wednesday", "Thursday",
          "Friday", "Saturday", "Sunday"]) := by
  constructor
  · intro h
    subst h
    rfl
  · intro h
    cases hg : buildSunday preds cfg with
    | none => exact absurd ((buildSunday_eq_none_iff preds cfg).mp hg) h
    | some sun =>
        refine ⟨weekdaysOf pool cfg ++ [("Sunday", sun)], ?_, ?_⟩
        · unfold generateFrom
          rw [hg]
        · rw [List.map_append, weekdaysOf_names]
          rfl

/-- C8 witness: the boundary pair with an empty pool argument. -/
theorem c8_total_pipeline_witness :
    predsPair ≠ [] ∧
      ∃ w, generateFrom predsPair [] cfgDefault = Except.ok w ∧
        w.map Prod.fst = ["Monday", "Tuesday", "Wednesday", "Thursday",
          "Friday", "Saturday", "Sunday"] :=
  ⟨by decide, (c8_total_pipeline predsPair [] cfgDefault).2 (by decide)⟩

/-- C5: whenever Sunday is built (the prediction list is non-empty), the
Sunday schedule contains exactly one Assessment block of 2 hours (120
minutes) and exactly two Revision blocks of 1.5 hours (90 minutes) each;
the first Revision is on a subject of maximal weakness among the
predictions, and the second on a subject of maximal weakness among the
remaining predictions — the same subject again when only one prediction
exists. -/
theorem c5_sunday_template (preds : List SubjectPred) (cfg : Config)
    (sun : List Slot) (hsun : buildSunday preds cfg = some sun) :
    ((sun.filter fun t => decide (t.kind = SlotType.assessment)).map
        (fun t => t.stop - t.start) = [120]) ∧
      (∀ t ∈ sun, t.kind = SlotType.revision → t.stop - t.start = 90) ∧
      ∃ p, p ∈ preds ∧ (∀ r ∈ preds, r.weakness_score ≤ p.weakness_score) ∧
        ∃ q, ((preds.length = 1 ∧ q = p) ∨
            (q ∈ preds.erase p ∧
              ∀ r ∈ preds.erase p, r.weakness_score ≤ q.weakness_score)) ∧
          (sun.filter fun t => decide (t.kind = SlotType.revision)).map
              Slot.subject =
            ["📚 Revision: " ++ p.subject, "📚 Revision: " ++ q.subject] := by
  have hperm : List.Perm (sortAux [] preds) preds := by
    simpa using sortAux_perm preds []
  have hsorted : SortedDescW (sortAux [] preds) :=
    sortAux_sorted preds [] (by simp [SortedDescW])
  unfold buildSunday at hsun
  cases hsort : sortAux [] preds with
  | nil =>
      rw [show nlargestSubjects preds = [] from by
        unfold nlargestSubjects; rw [hsort]; rfl] at hsun
      exact absurd hsun (by simp)
  | cons P0 t =>
      rw [hsort] at hperm hsorted
      have hP0 : P0 ∈ preds := hperm.mem_iff.mp (List.mem_cons_self _ _)
      have hmax : ∀ r ∈ preds, r.weakness_score ≤ P0.weakness_score := by
        intro r hr
        rcases List.mem_cons.mp (hperm.mem_iff.mpr hr) with rfl | hr2
        · exact le_rfl
        · exact (List.pairwise_cons.mp hsorted).1 r hr2
      cases t with
      | nil =>
          have hn : nlargestSubjects preds = [P0.subject] := by
            unfold nlargestSubjects; rw [hsort]; rfl
          rw [hn] at hsun
          obtain rfl : _ = sun := Option.some.inj hsun
          refine ⟨by simp, ?_, ?_⟩
          · intro t ht hrev
            simp only [List.mem_cons, List.not_mem_nil, or_false] at ht
            rcases ht with rfl | rfl | rfl | rfl | rfl | rfl | rfl | rfl | rfl <;>
              simp_all <;> try omega
          · refine ⟨P0, hP0, hmax, P0, Or.inl ⟨?_, rfl⟩, by simp⟩
            simpa using hperm.length_eq.symm
      | cons P1 t2 =>
          have hn : nlargestSubjects preds =
              P0.subject :: P1.subject :: (t2.take 1).map SubjectPred.subject := by
            unfold nlargestSubjects; rw [hsort]; rfl
          rw [hn] at hsun
          obtain rfl : _ = sun := Option.some.inj hsun
          have htl := (List.pairwise_cons.mp hsorted).2
          have herase : List.Perm (P1 :: t2) (preds.erase P0) := by
            have := hperm.erase P0
            rwa [List.erase_cons_head] at this
          refine ⟨by simp, ?_, ?_⟩
          · intro t ht hrev
            simp only [List.mem_cons, List.not_mem_nil, or_false] at ht
            rcases ht with rfl | rfl | rfl | rfl | rfl | rfl | rfl | rfl | rfl <;>
              simp_all <;> try omega
          · refine ⟨P0, hP0, hmax, P1, Or.inr ⟨?_, ?_⟩, by simp⟩
            · exact herase.mem_iff.mp (List.mem_cons_self _ _)
            · intro r hr
              rcases List.mem_cons.mp (herase.mem_iff.mpr hr) with rfl | hr2
              · exact le_rfl
              · exact (List.pairwise_cons.mp htl).1 r hr2

/-- C5 witness: the boundary pair under the default configuration. -/
theorem c5_sunday_template_witness :
    ∃ sun, buildSunday predsPair cfgDefault = some sun ∧
      (((sun.filter fun t => decide (t.kind = SlotType.assessment)).map
          (fun t => t.stop - t.start) = [120]) ∧
        (∀ t ∈ sun, t.kind = SlotType.revision → t.stop - t.start = 90) ∧
        ∃ p, p ∈ predsPair ∧
          (∀ r ∈ predsPair, r.weakness_score ≤ p.weakness_score) ∧
          ∃ q, ((predsPair.length = 1 ∧ q = p) ∨
              (q ∈ predsPair.erase p ∧
                ∀ r ∈ predsPair.erase p, r.weakness_score ≤ q.weakness_score)) ∧
            (sun.filter fun t => decide (t.kind = SlotType.revision)).map
                Slot.subject =
              ["📚 Revision: " ++ p.subject, "📚 Revision: " ++ q.subject]) := by
  refine ⟨(buildSunday predsPair cfgDefault).getD [], ?_, ?_⟩
  · decide
  · exact c5_sunday_template predsPair cfgDefault _ (by decide)

theorem buildWeekday_withSleep (cfg : Config) (s : ℤ) (tokens : List String) :
    buildWeekday (withSleep cfg s) tokens = buildWeekday cfg tokens := rfl

theorem weekdaysOf_withSleep (pool : List String) (cfg : Config) (s : ℤ) :
    weekdaysOf pool (withSleep cfg s) = weekdaysOf pool cfg := rfl

theorem generateFrom_normWeek_withSleep (preds : List SubjectPred)
    (pool : List String) (cfg : Config) (s1 s2 : ℤ) :
    Except.map normWeek (generateFrom preds pool (withSleep cfg s1)) =
      Except.map normWeek (generateFrom preds pool (withSleep cfg s2)) := by
  unfold generateFrom buildSunday
  cases hn : nlargestSubjects preds with
  | nil => rfl
  | cons w0 ws =>
      simp only [Except.map, normWeek, List.map_append, weekdaysOf_withSleep,
        eraseFinalStop, withSleep]
      rfl

theorem generateFrom_sunday_last (preds : List SubjectPred) (pool : List String)
    (cfg : Config) (w : List (String × List Slot))
    (hw : generateFrom preds pool cfg = Except.ok w) :
    ∀ sl, ("Sunday", sl) ∈ w → ∃ last, sl.getLast? = some last ∧
      last.subject = "🎮 Leisure / Relaxation" ∧ last.kind = SlotType.free := by
  unfold generateFrom at hw
  cases hb : buildSunday preds cfg with
  | none => rw [hb] at hw; exact absurd hw (by simp)
  | some sun =>
      rw [hb] at hw
      obtain rfl : _ = w := Except.ok.inj hw
      intro sl hmem
      rcases List.mem_append.mp hmem with hmem | hmem
      · exfalso
        have hname : "Sunday" ∈ (weekdaysOf pool cfg).map Prod.fst :=
          List.mem_map.mpr ⟨_, hmem, rfl⟩
        rw [weekdaysOf_names] at hname
        simp [days6] at hname
      · have hsl : sl = sun := congrArg Prod.snd (List.mem_singleton.mp hmem)
        subst hsl
        unfold buildSunday at hb
        cases hn : nlargestSubjects preds with
        | nil => rw [hn] at hb; exact absurd hb (by simp)
        | cons w0 ws =>
            rw [hn] at hb
            obtain rfl : _ = sl := Option.some.inj hb
            exact ⟨_, rfl, rfl, rfl⟩

/-- C10: two configurations that differ only in sleep time produce the
same week up to the stop time (hence duration) of the final Sunday slot,
and that final Sunday slot is the Leisure block; in particular the
Monday..Saturday schedules are identical. -/
theorem c10_sleep_isolation (g : Nat) (preds : List SubjectPred) (cfg : Config)
    (s1 s2 : ℤ) :
    (Except.map normWeek (generate_smart_timetable g preds (withSleep cfg s1)).1 =
        Except.map normWeek (generate_smart_timetable g preds (withSleep cfg s2)).1) ∧
      ∀ w, (generate_smart_timetable g preds (withSleep cfg s1)).1 = Except.ok w →
        ∀ sl, ("Sunday", sl) ∈ w → ∃ last, sl.getLast? = some last ∧
          last.subject = "🎮 Leisure / Relaxation" ∧ last.kind = SlotType.free := by
  constructor
  · exact generateFrom_normWeek_withSleep preds
      (npShuffle (npSeed 42 g) (subjectPool preds)).1 cfg s1 s2
  · intro w hw
    exact generateFrom_sunday_last preds
      (npShuffle (npSeed 42 g) (subjectPool preds)).1 (withSleep cfg s1) w hw

/-- C10 witness: the boundary pair with sleep 05:00 versus 23:00 under the
otherwise-default configuration. -/
theorem c10_sleep_isolation_witness :
    (Except.map normWeek (generate_smart_timetable 0 predsPair (withSleep cfgDefault 300)).1 =
        Except.map normWeek (generate_smart_timetable 0 predsPair (withSleep cfgDefault 1380)).1) ∧
      ∃ last,
        ((((generate_smart_timetable 0 predsPair (withSleep cfgDefault 300)).1.toOption.getD
            []).getLast?.getD ("", [])).2).getLast? = some last ∧
          last.subject = "🎮 Leisure / Relaxation" ∧ last.kind = SlotType.free := by
  have h := c10_sleep_isolation 0 predsPair cfgDefault 300 1380
  refine ⟨h.1, ?_⟩
  have hw : (generate_smart_timetable 0 predsPair (withSleep cfgDefault 300)).1 =
      Except.ok ((generate_smart_timetable 0 predsPair (withSleep cfgDefault 300)).1.toOption.getD []) := by
    simp only [generate_smart_timetable, pool_pair]
    decide
  refine h.2 _ hw _ ?_
  simp only [generate_smart_timetable, pool_pair]
  decide
